import Mathlib

/-!
Verification development for the organizational-analytics core of the
org-insights-hub repository.

The repository ships two closely related copies of the analytics module
(`employeeAnalytics`): an earlier one (referred to below as V1, whose
`setLayers(root, 0)` makes the root layer 0) and a later one (V2, whose
`setLayers(root, 1)` makes the root layer 1).  Apart from the initial layer
value the tree construction is identical, so it is embedded once,
parameterised by the root layer.  The statistics and quick-win functions are
embedded from the V2 copy (the one the claims cite by line); where V1
differs materially this is noted at the claim.

Modelling conventions:
* JavaScript numbers are modelled as `ℚ`.  The only places the source can
  produce a non-finite number (`0/0 = NaN` on an empty roster) are modelled
  with `Option ℚ`, `none` standing for the non-finite result (`jdiv`), and
  a comparison with `NaN`, which is false in JavaScript, is modelled by
  `jgtB`/the `none` branch of a `match` returning `false`.
* `new Date()` (the analysis time used by tenure computations) is passed in
  explicitly as `nowMs`, the epoch-milliseconds value the source obtains
  from the clock.
* A JavaScript `Map` keyed by strings is modelled as a `List Employee` in
  key-insertion order with last-write-wins on duplicate keys (`orgMap`);
  `Map.forEach` iteration order is this list order, exactly as in V8.
* The mutation-based tree construction (`employeeMap.forEach` attaching
  children, then a recursive `setLayers`) is modelled functionally:
  `attachedTo` is the child list a node ends up with (children attach
  themselves in map-iteration order, hence `List.filter` order), and
  `buildSub` unfolds the reachable part of the graph with fuel
  `(orgMap emps).length`.  `buildSub_subtreeOK` proves the fuel is never
  exhausted on the reachable part, so the fuelled unfolding coincides with
  the source's traversal.
* `Array.prototype.sort` is stable (ECMAScript §23.1.3.30), and the
  comparator sorts by a 3-valued numeric key; the unique stable sort by that
  key is `List.insertionSort` with the non-strict key order, which is
  therefore the model of the final sort.
* The presentational `title`/`description` strings of a quick win are not
  modelled; the `metric` string is abstracted to its numeric content
  (`metricNum`), e.g. `` `${maxLayer - benchmarks.maxLayers} excess layers` ``
  becomes the rational `maxLayer - maxLayers`.
* The source field `bestCostRatio` is named `bestCostRate` here (the original
  spelling is not usable in this development); likewise
  `managerToICRatio` is `managerToICRate`.
-/

/-- One validated employee record (`Employee` in `types/employee.ts`).
Fields not referenced by any claim (`title`, `location`, `costCenter`) are
omitted; `hireDate` is represented by its epoch-milliseconds value
(`new Date(e.hireDate).getTime()`). -/
structure Employee where
  employeeId : String
  managerId : Option String
  name : String := ""
  department : String := ""
  roleFamily : String := ""
  countryTag : String := ""
  hireDateMs : ℚ := 0
  flrr : ℚ := 0
  baseSalary : ℚ := 0
  bonus : ℚ := 0
deriving DecidableEq

/-- JavaScript division: `a / b` is a finite number unless `b = 0`; on this
code's inputs the numerator is then also 0, so the result is `NaN`,
modelled as `none`. -/
def jdiv (a b : ℚ) : Option ℚ := if b = 0 then none else some (a / b)

/-- JavaScript `x > t` where `x` may be `NaN` (`none`): `NaN > t` is false. -/
def jgtB (x : Option ℚ) (t : ℚ) : Bool :=
  match x with
  | none => false
  | some v => decide (t < v)

/-- `employeeMap.set(emp.employeeId, node)`: a JS `Map` keeps the original
key position on overwrite and appends new keys. -/
def mapUpsert (m : List Employee) (e : Employee) : List Employee :=
  if m.any (fun x => decide (x.employeeId = e.employeeId)) then
    m.map (fun x => if x.employeeId = e.employeeId then e else x)
  else m ++ [e]

/-- The contents of `employeeMap` after the initial `employees.forEach`:
one entry per distinct identifier, in first-insertion order, holding the
last record with that identifier. -/
def orgMap (emps : List Employee) : List Employee :=
  emps.foldl mapUpsert []

/-- `!node.managerId || !employeeMap.has(node.managerId)`: the node is a
root candidate iff its manager reference is falsy (`null`/`undefined`/empty
string) or does not resolve in the map. -/
def isRootCand (m : List Employee) (e : Employee) : Bool :=
  match e.managerId with
  | none => true
  | some s => decide (s = "") || !(m.any (fun x => decide (x.employeeId = s)))

/-- The `root` variable after `employeeMap.forEach`: reassigned at every
root candidate, so the last candidate in map order wins. -/
def chooseRoot (m : List Employee) : Option Employee :=
  m.foldl (fun r e => if isRootCand m e then some e else r) none

/-- The child list a map node with identifier `i` ends up with: every
non-root-candidate node pushes itself onto its manager's `children` during
the same `forEach`, in map-iteration order.  A node whose `managerId` is the
empty string is falsy, hence a root candidate, hence never attached. -/
def attachedTo (m : List Employee) (i : String) : List Employee :=
  if i = "" then [] else m.filter (fun e => decide (e.managerId = some i))

/-- A node of the reconstructed hierarchy (`OrgNode`): the wrapped record,
the assigned layer, and the ordered child list.  `directReports` is always
`children.length` in the source and is not duplicated here. -/
inductive OrgNode where
  | mk (emp : Employee) (layer : Nat) (children : List OrgNode)

def OrgNode.emp : OrgNode → Employee
  | .mk e _ _ => e

def OrgNode.layer : OrgNode → Nat
  | .mk _ l _ => l

def OrgNode.children : OrgNode → List OrgNode
  | .mk _ _ cs => cs

/-- Unfolds the linked child structure below one node, assigning
`layer + 1` to each child exactly as `setLayers` does.  `fuel` bounds the
recursion depth; `buildSub_subtreeOK` shows fuel `(orgMap emps).length` is
never exhausted on the part reachable from the chosen root, so this equals
the source's tree. -/
def buildSub (m : List Employee) : Nat → Employee → Nat → OrgNode
  | 0, e, lay => .mk e lay []
  | fuel + 1, e, lay =>
    .mk e lay ((attachedTo m e.employeeId).map (fun c => buildSub m fuel c (lay + 1)))

/-- `buildOrgTree`, parameterised by the layer given to the root by
`setLayers` (0 in the V1 copy, 1 in the V2 copy). -/
def buildOrgTreeAux (emps : List Employee) (rootLayer : Nat) : Option OrgNode :=
  let m := orgMap emps
  match chooseRoot m with
  | none => none
  | some r => some (buildSub m m.length r rootLayer)

/-- `buildOrgTree` of the V1 copy: `setLayers(root, 0)`. -/
def buildOrgTreeV1 (emps : List Employee) : Option OrgNode :=
  buildOrgTreeAux emps 0

/-- `buildOrgTree` of the V2 copy: `setLayers(root, 1)`. -/
def buildOrgTreeV2 (emps : List Employee) : Option OrgNode :=
  buildOrgTreeAux emps 1

/-- Per-layer roll-up (`LayerStats`, V2 shape). -/
structure LayerStats where
  layer : Nat
  headcount : Nat
  totalFLRR : ℚ
  avgFLRR : ℚ
  managers : Nat
  ics : Nat
deriving DecidableEq

mutual
/-- The `(employee, layer)` pairs pushed into `layerMap` by
`calculateLayerStats`' `traverse`, in traversal (preorder) order:
`employees.find(e => e.employeeId === node.employeeId)` per node, skipped
when absent. -/
def collectLayers (emps : List Employee) : OrgNode → List (Employee × Nat)
  | .mk e lay cs =>
    (match emps.find? (fun x => decide (x.employeeId = e.employeeId)) with
     | some fe => [(fe, lay)]
     | none => []) ++ collectLayersL emps cs

def collectLayersL (emps : List Employee) : List OrgNode → List (Employee × Nat)
  | [] => []
  | t :: ts => collectLayers emps t ++ collectLayersL emps ts
end

/-- `employees.some(emp => emp.managerId === e.employeeId)`: the manager
classification used for the `managers`/`ics` counts. -/
def isMgrOf (emps : List Employee) (e : Employee) : Bool :=
  emps.any (fun x => decide (x.managerId = some e.employeeId))

/-- First-occurrence deduplication: the key order of a JS `Map` built by
grouping (`layerMap`, `deptMap`, `roleMap`). -/
def dedupFirst {α : Type} [DecidableEq α] : List α → List α
  | [] => []
  | k :: ks => k :: (dedupFirst ks).filter (fun x => decide (x ≠ k))

/-- The `LayerStats` entry produced for one layer bucket of `layerMap`
(the bucket is the traversal pairs with that layer, in traversal order;
buckets are nonempty by construction so the unguarded `avgFLRR` division is
finite). -/
def layerStatOf (emps : List Employee) (pairs : List (Employee × Nat)) (lay : Nat) : LayerStats :=
  let bucket := (pairs.filter (fun p => decide (p.2 = lay))).map Prod.fst
  { layer := lay
    headcount := bucket.length
    totalFLRR := (bucket.map Employee.flrr).sum
    avgFLRR := (bucket.map Employee.flrr).sum / (bucket.length : ℚ)
    managers := (bucket.filter (fun e => isMgrOf emps e)).length
    ics := (bucket.filter (fun e => !(isMgrOf emps e))).length }

/-- `calculateLayerStats` (V2): traverse, bucket by layer, sort ascending
by layer.  The distinct layers sorted ascending with nonempty buckets give
exactly the source's `Array.from(layerMap.entries()).map(...).sort(...)`. -/
def calculateLayerStats (emps : List Employee) : Option OrgNode → List LayerStats
  | none => []
  | some t =>
    let pairs := collectLayers emps t
    (List.insertionSort (fun a b => a ≤ b) (dedupFirst (pairs.map Prod.snd))).map
      (layerStatOf emps pairs)

/-- One span-of-control record (`SpanStats`, V2 shape). -/
structure SpanStats where
  managerId : String
  managerName : String
  department : String
  directReports : Nat
  layer : Nat
deriving DecidableEq

mutual
/-- `calculateSpanStats`' `traverse`: one record per node with at least one
child, in preorder. -/
def collectSpans : OrgNode → List SpanStats
  | .mk e lay cs =>
    (if 0 < cs.length then [⟨e.employeeId, e.name, e.department, cs.length, lay⟩] else [])
      ++ collectSpansL cs

def collectSpansL : List OrgNode → List SpanStats
  | [] => []
  | t :: ts => collectSpans t ++ collectSpansL ts
end

/-- `calculateSpanStats` (V2); the `employees` argument is unused in the
source body as well. -/
def calculateSpanStats (emps : List Employee) : Option OrgNode → List SpanStats
  | none => []
  | some t => collectSpans t

/-- Per-department roll-up (`DepartmentStats`). -/
structure DepartmentStats where
  department : String
  headcount : Nat
  totalFLRR : ℚ
  avgFLRR : ℚ
  bestCostCount : Nat
  highCostCount : Nat
  bestCostPercent : ℚ
deriving DecidableEq

/-- `calculateDepartmentStats`: group by `department` in first-occurrence
order; buckets are nonempty so the divisions are finite. -/
def calculateDepartmentStats (emps : List Employee) : List DepartmentStats :=
  (dedupFirst (emps.map Employee.department)).map (fun d =>
    let es := emps.filter (fun e => decide (e.department = d))
    let bcc := (es.filter (fun e => decide (e.countryTag = "Best-cost"))).length
    { department := d
      headcount := es.length
      totalFLRR := (es.map Employee.flrr).sum
      avgFLRR := (es.map Employee.flrr).sum / (es.length : ℚ)
      bestCostCount := bcc
      highCostCount := es.length - bcc
      bestCostPercent := ((bcc : ℚ) / (es.length : ℚ)) * 100 })

/-- Per-role-family roll-up (`RoleFamilyStats`). -/
structure RoleFamilyStats where
  roleFamily : String
  headcount : Nat
  totalFLRR : ℚ
  totalBase : ℚ
  totalBonus : ℚ
  avgVariablePercent : ℚ
  bestCostCount : Nat
  highCostCount : Nat
deriving DecidableEq

/-- `calculateRoleFamilyStats`: group by `roleFamily`; the variable-pay
percentage is guarded (`totalComp > 0 ? ... : 0`). -/
def calculateRoleFamilyStats (emps : List Employee) : List RoleFamilyStats :=
  (dedupFirst (emps.map Employee.roleFamily)).map (fun rf =>
    let es := emps.filter (fun e => decide (e.roleFamily = rf))
    let totalBase := (es.map Employee.baseSalary).sum
    let totalBonus := (es.map Employee.bonus).sum
    let totalComp := totalBase + totalBonus
    let bcc := (es.filter (fun e => decide (e.countryTag = "Best-cost"))).length
    { roleFamily := rf
      headcount := es.length
      totalFLRR := (es.map Employee.flrr).sum
      totalBase := totalBase
      totalBonus := totalBonus
      avgVariablePercent := if 0 < totalComp then (totalBonus / totalComp) * 100 else 0
      bestCostCount := bcc
      highCostCount := es.length - bcc })

/-- One tenure cohort (`TenureBand`). -/
structure TenureBand where
  band : String
  min : ℚ
  max : ℚ
  headcount : Nat
  totalFLRR : ℚ
deriving DecidableEq

/-- Tenure in years: `(now.getTime() - hireDate.getTime()) / (1000*60*60*24*365)`. -/
def yearsSince (nowMs : ℚ) (e : Employee) : ℚ :=
  (nowMs - e.hireDateMs) / (1000 * 60 * 60 * 24 * 365)

/-- The fixed `bands` array of `calculateTenureBands`: note the `5+` band
has `max: 100`. -/
def tenureBandDefs : List (String × ℚ × ℚ) :=
  [("0-1 years", 0, 1), ("1-3 years", 1, 3), ("3-5 years", 3, 5), ("5+ years", 5, 100)]

/-- `calculateTenureBands`: each band counts records with
`years >= min && years < max`. -/
def calculateTenureBands (nowMs : ℚ) (emps : List Employee) : List TenureBand :=
  tenureBandDefs.map (fun b =>
    let es := emps.filter (fun e =>
      decide (b.2.1 ≤ yearsSince nowMs e) && decide (yearsSince nowMs e < b.2.2))
    { band := b.1
      min := b.2.1
      max := b.2.2
      headcount := es.length
      totalFLRR := (es.map Employee.flrr).sum })

/-- The benchmark policy (`Benchmarks`); `bestCostRate` is the source's
`bestCostRatio`, and the role-target object is an association list. -/
structure Benchmarks where
  minSpan : Nat
  maxSpan : Nat
  maxLayers : Nat
  targetVariableByRole : List (String × ℚ)
  bestCostRate : ℚ
deriving DecidableEq

/-- `defaultBenchmarks` of the V2 copy. -/
def defaultBenchmarks : Benchmarks :=
  { minSpan := 4
    maxSpan := 10
    maxLayers := 6
    targetVariableByRole :=
      [("Sales", 40), ("Executive", 30), ("Engineering", 15), ("Operations", 10),
       ("Support", 10), ("Finance", 15), ("Marketing", 20), ("HR", 10), ("default", 15)]
    bestCostRate := 2/5 }

/-- Object property lookup `obj[key]`: `undefined` is `none`. -/
def lookupRole (m : List (String × ℚ)) (k : String) : Option ℚ :=
  (m.find? (fun p => decide (p.1 = k))).map Prod.snd

/-- JavaScript `a || b` on an optional number: falls through to `b` when
`a` is `undefined` or the falsy number `0`. -/
def jsOrQ (a b : Option ℚ) : Option ℚ :=
  match a with
  | some v => if v ≠ 0 then some v else b
  | none => b

/-- The effective variable-pay target used by the compensation rule:
`benchmarks.targetVariableByRole[role.roleFamily] || benchmarks.targetVariableByRole['default']`.
`none` is the `undefined` that arises when both lookups miss. -/
def effTarget (b : Benchmarks) (rf : String) : Option ℚ :=
  jsOrQ (lookupRole b.targetVariableByRole rf) (lookupRole b.targetVariableByRole "default")

/-- The `impact` tier of a quick win. -/
inductive Impact where
  | high
  | medium
  | low
deriving DecidableEq

/-- The `impactOrder` object of the final sort: `{high: 0, medium: 1, low: 2}`. -/
def impactOrder : Impact → Nat
  | .high => 0
  | .medium => 1
  | .low => 2

/-- A finding (`QuickWin`); `title`/`description` are presentational and
omitted, `metricNum` is the numeric content of the `metric` string. -/
structure QuickWin where
  id : String
  impact : Impact
  category : String
  metricNum : ℚ
deriving DecidableEq

/-- The offshoring rule of `generateQuickWins` (V2): fires when more than
50% of headcount is high-cost; on an empty roster the percentage is `NaN`
and the comparison is false. -/
def offshoringWins (emps : List Employee) (b : Benchmarks) : List QuickWin :=
  let highCostEmps := emps.filter (fun e => decide (e.countryTag = "High-cost"))
  let highCostPercent := (jdiv (highCostEmps.length : ℚ) (emps.length : ℚ)).map (fun q => q * 100)
  let highCostFLRR := (highCostEmps.map Employee.flrr).sum
  if jgtB highCostPercent 50 then
    [{ id := "offshoring-1", impact := Impact.high, category := "offshoring",
       metricNum := highCostFLRR * b.bestCostRate }]
  else []

/-- The single-report-managers rule. -/
def singleReportWins (ss : List SpanStats) : List QuickWin :=
  let srm := ss.filter (fun s => decide (s.directReports = 1))
  if 0 < srm.length then
    [{ id := "spans-1", impact := if 5 < srm.length then Impact.high else Impact.medium,
       category := "spans", metricNum := (srm.length : ℚ) }]
  else []

/-- The narrow-spans rule. -/
def narrowSpanWins (ss : List SpanStats) (b : Benchmarks) : List QuickWin :=
  let ns := ss.filter (fun s => decide (s.directReports < b.minSpan) && decide (1 < s.directReports))
  if 3 < ns.length then
    [{ id := "spans-2", impact := Impact.medium, category := "spans",
       metricNum := (ns.length : ℚ) }]
  else []

/-- `Math.max(...layerStats.map(l => l.layer))`: `none` is the `-Infinity`
of the empty spread, for which the `>` comparison is false. -/
def jsMaxLayer (ls : List LayerStats) : Option Nat :=
  ls.foldl (fun acc l =>
    match acc with
    | none => some l.layer
    | some m => some (max m l.layer)) none

/-- The excessive-layers rule: fires iff `maxLayer > benchmarks.maxLayers`,
with metric `maxLayer - benchmarks.maxLayers`. -/
def structureWins (ls : List LayerStats) (b : Benchmarks) : List QuickWin :=
  match jsMaxLayer ls with
  | none => []
  | some mL =>
    if b.maxLayers < mL then
      [{ id := "structure-1", impact := Impact.high, category := "structure",
         metricNum := (mL : ℚ) - (b.maxLayers : ℚ) }]
    else []

/-- The variable-compensation rule: one finding per role family whose
average variable percentage is below half the effective target; when both
the role entry and the `"default"` entry are missing the target is
`undefined`, the `<` comparison is false (NaN), and the role is silently
skipped. -/
def compWins (rs : List RoleFamilyStats) (b : Benchmarks) : List QuickWin :=
  rs.filterMap (fun r =>
    match effTarget b r.roleFamily with
    | none => none
    | some t =>
      if r.avgVariablePercent < t * (1/2) then
        some { id := "comp-" ++ r.roleFamily,
               impact := if r.roleFamily = "Sales" then Impact.high else Impact.medium,
               category := "compensation", metricNum := t - r.avgVariablePercent }
      else none)

/-- The finding list of `generateQuickWins` before the final sort, in rule
order (offshoring, single-report, narrow spans, excessive layers,
compensation), each rule appending in its own evaluation order. -/
def quickWinsPre (emps : List Employee) (ls : List LayerStats) (ss : List SpanStats)
    (rs : List RoleFamilyStats) (b : Benchmarks) : List QuickWin :=
  offshoringWins emps b ++ singleReportWins ss ++ narrowSpanWins ss b
    ++ structureWins ls b ++ compWins rs b

/-- The order of the final sort: by `impactOrder` of the impact tier. -/
def qwLE (a b : QuickWin) : Prop :=
  impactOrder a.impact ≤ impactOrder b.impact

instance : DecidableRel qwLE := fun a b => Nat.decLe (impactOrder a.impact) (impactOrder b.impact)

instance : IsTotal QuickWin qwLE :=
  ⟨fun a b => Nat.le_total (impactOrder a.impact) (impactOrder b.impact)⟩

instance : IsTrans QuickWin qwLE :=
  ⟨fun _ _ _ h1 h2 => Nat.le_trans h1 h2⟩

/-- `generateQuickWins` (V2): the rule findings, stably sorted by severity
(`Array.prototype.sort` with comparator
`impactOrder[a.impact] - impactOrder[b.impact]`; the ECMAScript sort is
stable, and the unique stable sort by a key is insertion sort by its
non-strict order). -/
def generateQuickWins (emps : List Employee) (ls : List LayerStats) (ss : List SpanStats)
    (rs : List RoleFamilyStats) (b : Benchmarks) : List QuickWin :=
  List.insertionSort qwLE (quickWinsPre emps ls ss rs b)

/-- The cross-cutting totals of the analysis snapshot (V2 shape);
`managerToICRate` is the source's `managerToICRatio`.  `avgFLRR` and
`bestCostPercent` are the two unguarded divisions, hence `Option ℚ`. -/
structure AnalysisTotals where
  headcount : Nat
  totalFLRR : ℚ
  avgFLRR : Option ℚ
  layers : Nat
  avgSpan : ℚ
  bestCostPercent : Option ℚ
  avgVariablePercent : ℚ
  managerToICRate : ℚ
deriving DecidableEq

/-- The full analysis snapshot (`AnalysisData`, V2 shape). -/
structure AnalysisData where
  employees : List Employee
  orgTree : Option OrgNode
  layerStats : List LayerStats
  spanStats : List SpanStats
  departmentStats : List DepartmentStats
  roleFamilyStats : List RoleFamilyStats
  tenureBands : List TenureBand
  quickWins : List QuickWin
  totals : AnalysisTotals

/-- `analyzeEmployeeData` (V2), the Analysis Façade. -/
def analyzeEmployeeData (nowMs : ℚ) (emps : List Employee) (b : Benchmarks) : AnalysisData :=
  let orgTree := buildOrgTreeV2 emps
  let layerStats := calculateLayerStats emps orgTree
  let spanStats := calculateSpanStats emps orgTree
  let departmentStats := calculateDepartmentStats emps
  let roleFamilyStats := calculateRoleFamilyStats emps
  let tenureBands := calculateTenureBands nowMs emps
  let quickWins := generateQuickWins emps layerStats spanStats roleFamilyStats b
  let managers := spanStats.length
  let ics : ℤ := (emps.length : ℤ) - (managers : ℤ)
  let bestCostCount := (emps.filter (fun e => decide (e.countryTag = "Best-cost"))).length
  let totalBonus := (emps.map Employee.bonus).sum
  let totalBase := (emps.map Employee.baseSalary).sum
  { employees := emps
    orgTree := orgTree
    layerStats := layerStats
    spanStats := spanStats
    departmentStats := departmentStats
    roleFamilyStats := roleFamilyStats
    tenureBands := tenureBands
    quickWins := quickWins
    totals :=
      { headcount := emps.length
        totalFLRR := (emps.map Employee.flrr).sum
        avgFLRR := jdiv (emps.map Employee.flrr).sum (emps.length : ℚ)
        layers := layerStats.length
        avgSpan :=
          if 0 < spanStats.length then
            ((spanStats.map (fun s => (s.directReports : ℚ))).sum) / (spanStats.length : ℚ)
          else 0
        bestCostPercent := (jdiv (bestCostCount : ℚ) (emps.length : ℚ)).map (fun q => q * 100)
        avgVariablePercent :=
          if 0 < totalBase + totalBonus then (totalBonus / (totalBase + totalBonus)) * 100 else 0
        managerToICRate := if 0 < ics then (managers : ℚ) / (ics : ℚ) else 0 } }

mutual
/-- The employees at the nodes of a tree, in preorder: "who is in the
tree", the single source of truth for every traversal-based statistic. -/
def treeEmps : OrgNode → List Employee
  | .mk e _ cs => e :: treeEmpsL cs

def treeEmpsL : List OrgNode → List Employee
  | [] => []
  | t :: ts => treeEmps t ++ treeEmpsL ts
end

/-- Every node of the tree carries exactly the child list the `forEach`
pass attached to it: the property that makes the fuelled `buildSub`
coincide with the source's mutated object graph. -/
inductive SubtreeOK (m : List Employee) : OrgNode → Prop where
  | mk (e : Employee) (lay : Nat) (cs : List OrgNode) :
      cs.map OrgNode.emp = attachedTo m e.employeeId →
      (∀ c ∈ cs, SubtreeOK m c) →
      SubtreeOK m (.mk e lay cs)

/-- Every child of every node has `layer = parent.layer + 1` (the
`setLayers` invariant). -/
inductive LayersLinked : OrgNode → Prop where
  | mk (e : Employee) (lay : Nat) (cs : List OrgNode) :
      (∀ c ∈ cs, c.layer = lay + 1) →
      (∀ c ∈ cs, LayersLinked c) →
      LayersLinked (.mk e lay cs)

/-- An ancestor chain in the linked object graph: `[e, parent e, ...]`
ending at the chosen root (a root candidate).  Chains are duplicate-free
(`ChainOK.nodup`), which bounds the traversal depth by the map size. -/
inductive ChainOK (m : List Employee) : List Employee → Prop where
  | single (r : Employee) : r ∈ m → isRootCand m r = true → ChainOK m [r]
  | cons (e p : Employee) (rest : List Employee) :
      ChainOK m (p :: rest) → e ∈ attachedTo m p.employeeId → ChainOK m (e :: p :: rest)

/-- Records `[A, B→A, C→A, D→Z]` of the spec's §8 scenario (`Z` resolves
to nothing). -/
def eA : Employee := { employeeId := "A", managerId := none }

def eB : Employee := { employeeId := "B", managerId := some "A" }

def eC : Employee := { employeeId := "C", managerId := some "A" }

def eD : Employee := { employeeId := "D", managerId := some "Z" }

def c1emps : List Employee := [eA, eB, eC, eD]

/-- A two-record manager cycle: every manager reference resolves, so no
record is a root candidate. -/
def cycAB : List Employee :=
  [{ employeeId := "A", managerId := some "B" }, { employeeId := "B", managerId := some "A" }]

/-- Two root candidates `X`, `Y` plus `Z` reporting to `X`: the last
candidate `Y` wins, leaving `X` (a manager by reference) unreachable. -/
def eX : Employee := { employeeId := "X", managerId := none }

def eY : Employee := { employeeId := "Y", managerId := none }

def eZ : Employee := { employeeId := "Z", managerId := some "X" }

def c5emps : List Employee := [eX, eY, eZ]

/-- A record hired 150 years before the analysis time `now150`. -/
def eOld : Employee := { employeeId := "X", managerId := none, hireDateMs := 0 }

def now150 : ℚ := 150 * 365 * 24 * 60 * 60 * 1000

/-- A single-stat layer list whose maximum layer equals the default
`maxLayers` benchmark. -/
def ls6 : LayerStats :=
  { layer := 6, headcount := 1, totalFLRR := 0, avgFLRR := 0, managers := 0, ics := 1 }

/-- A policy whose role-target mapping is empty: no role entry and no
`"default"` fallback. -/
def noDefaultPolicy : Benchmarks :=
  { minSpan := 4, maxSpan := 10, maxLayers := 6, targetVariableByRole := [], bestCostRate := 2/5 }

/-- A role-family stat with 0% variable pay. -/
def rsG : RoleFamilyStats :=
  { roleFamily := "G", headcount := 1, totalFLRR := 0, totalBase := 90000, totalBonus := 0,
    avgVariablePercent := 0, bestCostCount := 0, highCostCount := 1 }

/-- A policy giving role `G` the explicit target 0 next to a `"default"`
of 15. -/
def zeroTargetPolicy : Benchmarks :=
  { minSpan := 4, maxSpan := 10, maxLayers := 6,
    targetVariableByRole := [("G", 0), ("default", 15)], bestCostRate := 2/5 }

/-- A single root-only record. -/
def eSolo : Employee := { employeeId := "S", managerId := none }

lemma buildSub_emp (m : List Employee) (fuel : Nat) (e : Employee) (lay : Nat) :
    (buildSub m fuel e lay).emp = e := by
  cases fuel <;> simp [buildSub, OrgNode.emp]

lemma buildSub_layer (m : List Employee) (fuel : Nat) (e : Employee) (lay : Nat) :
    (buildSub m fuel e lay).layer = lay := by
  cases fuel <;> simp [buildSub, OrgNode.layer]

lemma layersLinked_buildSub (m : List Employee) :
    ∀ (fuel : Nat) (e : Employee) (lay : Nat), LayersLinked (buildSub m fuel e lay) := by
  intro fuel
  induction fuel with
  | zero =>
    intro e lay
    exact .mk e lay [] (by simp) (by simp)
  | succ f ih =>
    intro e lay
    refine .mk e lay _ ?_ ?_
    · intro c hc
      rw [List.mem_map] at hc
      obtain ⟨c0, _, rfl⟩ := hc
      exact buildSub_layer m f c0 (lay + 1)
    · intro c hc
      rw [List.mem_map] at hc
      obtain ⟨c0, _, rfl⟩ := hc
      exact ih c0 (lay + 1)

lemma foldl_chooseRoot_isSome (m : List Employee) (l : List Employee) (acc : Option Employee) :
    (l.foldl (fun r e => if isRootCand m e then some e else r) acc).isSome
      = (acc.isSome || l.any (fun e => isRootCand m e)) := by
  induction l generalizing acc with
  | nil => simp
  | cons e es ih =>
    cases h : isRootCand m e
    · simp [List.foldl_cons, h, ih]
    · simp [List.foldl_cons, h, ih]

lemma chooseRoot_isSome (m : List Employee) :
    (chooseRoot m).isSome = m.any (fun e => isRootCand m e) := by
  unfold chooseRoot
  rw [foldl_chooseRoot_isSome]
  simp

lemma buildOrgTreeAux_eq_some (emps : List Employee) (rl : Nat) (t : OrgNode)
    (h : buildOrgTreeAux emps rl = some t) :
    ∃ r, chooseRoot (orgMap emps) = some r
      ∧ t = buildSub (orgMap emps) (orgMap emps).length r rl := by
  unfold buildOrgTreeAux at h
  dsimp only at h
  cases hr : chooseRoot (orgMap emps) with
  | none => rw [hr] at h; exact Option.noConfusion h
  | some r =>
    rw [hr] at h
    simp only [Option.some.injEq] at h
    exact ⟨r, rfl, h.symm⟩

/-- C3 (corrected, counterexample): on the nonempty two-record cycle
`A→B, B→A` every manager reference resolves, no record is a root
candidate, and `build` returns `null` — not a root. -/
theorem buildOrgTree_cycle_returns_none :
    buildOrgTreeV2 cycAB = none ∧ cycAB ≠ [] :=
  ⟨rfl, by decide⟩

/-- C3 (amended): `build` returns a root iff some map entry is a root
candidate (manager reference absent, empty, or unresolved); on a roster
whose manager references all resolve — e.g. a cycle covering all records —
it returns `null`.  The same holds for both copies of `buildOrgTree`. -/
theorem buildOrgTree_isSome_iff (emps : List Employee) :
    ((buildOrgTreeV2 emps).isSome
        = (orgMap emps).any (fun e => isRootCand (orgMap emps) e))
  ∧ ((buildOrgTreeV1 emps).isSome
        = (orgMap emps).any (fun e => isRootCand (orgMap emps) e)) := by
  constructor
  · unfold buildOrgTreeV2 buildOrgTreeAux
    rw [← chooseRoot_isSome]
    cases h : chooseRoot (orgMap emps) <;> simp [h]
  · unfold buildOrgTreeV1 buildOrgTreeAux
    rw [← chooseRoot_isSome]
    cases h : chooseRoot (orgMap emps) <;> simp [h]

/-- C4 (corrected, counterexample): the V2 copy initialises the root layer
to 1 (`setLayers(root, 1)`), so on a single-record roster the returned
root has layer 1, not 0. -/
theorem root_layer_one_on_single :
    buildOrgTreeV2 [eSolo] = some (OrgNode.mk eSolo 1 [])
  ∧ (OrgNode.mk eSolo 1 []).layer ≠ 0 :=
  ⟨rfl, by decide⟩

/-- C4 (amended): whenever `buildOrgTree` returns a root, every child of
every reachable node has `layer = parent.layer + 1`; the root's own layer
is 0 in the V1 copy but 1 in the V2 copy. -/
theorem buildOrgTree_layer_invariant (emps : List Employee) :
    (∀ t, buildOrgTreeV1 emps = some t → t.layer = 0 ∧ LayersLinked t)
  ∧ (∀ t, buildOrgTreeV2 emps = some t → t.layer = 1 ∧ LayersLinked t) := by
  constructor <;> intro t ht <;>
  · obtain ⟨r, _, rfl⟩ := buildOrgTreeAux_eq_some emps _ t ht
    exact ⟨buildSub_layer _ _ _ _, layersLinked_buildSub _ _ _ _⟩

/-- C4 (witness): the amended invariant applied to the single-record
roster. -/
theorem buildOrgTree_layer_invariant_witness :
    (OrgNode.mk eSolo 1 []).layer = 1 ∧ LayersLinked (OrgNode.mk eSolo 1 []) :=
  (buildOrgTree_layer_invariant [eSolo]).2 (OrgNode.mk eSolo 1 []) rfl

/-- C1 (corrected, counterexample): on the scenario roster
`[A, B→A, C→A, D→Z]` the root reassignment keeps the *last* root candidate,
which is `D` (its reference `Z` does not resolve), not `A`; the span list
is empty (the reachable tree is the single childless node `D`) and the
layer stats are not the claimed `[(0,1),(1,2)]`. -/
theorem scenario_root_is_D :
    (buildOrgTreeV2 c1emps).map (fun t => t.emp.employeeId) = some "D"
  ∧ (buildOrgTreeV2 c1emps).map (fun t => t.emp.employeeId) ≠ some "A"
  ∧ calculateSpanStats c1emps (buildOrgTreeV2 c1emps) = []
  ∧ (calculateLayerStats c1emps (buildOrgTreeV2 c1emps)).map (fun l => (l.layer, l.headcount))
      ≠ [(0, 1), (1, 2)] := by
  refine ⟨by decide, by decide, by decide, by decide⟩

/-- C1 (amended): on the scenario roster the tree is rooted at `D` — the
last root candidate in input order — with no children; `A`, `B`, `C` are
unreachable and excluded from every statistic; the layer stats are the
single entry `{layer: 1, headcount: 1}` (layer 1 because the cited V2 copy
starts the root at layer 1) and the span list is empty. -/
theorem scenario_actual_results :
    (buildOrgTreeV2 c1emps).map (fun t => (t.emp.employeeId, t.layer, t.children.length))
      = some ("D", 1, 0)
  ∧ (calculateLayerStats c1emps (buildOrgTreeV2 c1emps)).map
      (fun l => (l.layer, l.headcount, l.managers, l.ics)) = [(1, 1, 0, 1)]
  ∧ calculateSpanStats c1emps (buildOrgTreeV2 c1emps) = [] := by
  refine ⟨by decide, by decide, by decide⟩

lemma filter_orderedInsert_eq (a : QuickWin) (l : List QuickWin) (i : Impact)
    (h : a.impact = i) :
    (List.orderedInsert qwLE a l).filter (fun w => decide (w.impact = i))
      = a :: l.filter (fun w => decide (w.impact = i)) := by
  induction l with
  | nil => simp [List.orderedInsert, h]
  | cons b bs ih =>
    by_cases hab : qwLE a b
    · simp [List.orderedInsert, hab, h]
    · have hbi : ¬(b.impact = i) := by
        intro hbi
        exact hab (by simp [qwLE, h, hbi])
      simp [List.orderedInsert, List.filter_cons, hab, hbi, ih]

lemma filter_orderedInsert_ne (a : QuickWin) (l : List QuickWin) (i : Impact)
    (h : ¬(a.impact = i)) :
    (List.orderedInsert qwLE a l).filter (fun w => decide (w.impact = i))
      = l.filter (fun w => decide (w.impact = i)) := by
  induction l with
  | nil => simp [List.orderedInsert, h]
  | cons b bs ih =>
    by_cases hab : qwLE a b
    · simp [List.orderedInsert, hab, h]
    · simp [List.orderedInsert, List.filter_cons, hab, ih]

lemma filter_insertionSort_impact (l : List QuickWin) (i : Impact) :
    (List.insertionSort qwLE l).filter (fun w => decide (w.impact = i))
      = l.filter (fun w => decide (w.impact = i)) := by
  induction l with
  | nil => rfl
  | cons a as ih =>
    show (List.orderedInsert qwLE a (List.insertionSort qwLE as)).filter _ = _
    by_cases h : a.impact = i
    · rw [filter_orderedInsert_eq a _ i h, ih]
      simp [h]
    · rw [filter_orderedInsert_ne a _ i h, ih]
      simp [h]

/-- C9 (confirmed): the finding list of `evaluate` is sorted ascending by
the severity order high, medium, low (`qwLE`), and the sort is stable: for
every severity tier, the findings of that tier appear in exactly the order
the rules inserted them (`quickWinsPre`). -/
theorem generateQuickWins_sorted_stable (emps : List Employee) (ls : List LayerStats)
    (ss : List SpanStats) (rs : List RoleFamilyStats) (b : Benchmarks) :
    List.Sorted qwLE (generateQuickWins emps ls ss rs b)
  ∧ ∀ i : Impact,
      (generateQuickWins emps ls ss rs b).filter (fun w => decide (w.impact = i))
        = (quickWinsPre emps ls ss rs b).filter (fun w => decide (w.impact = i)) :=
  ⟨List.sorted_insertionSort qwLE (quickWinsPre emps ls ss rs b),
   fun i => filter_insertionSort_impact (quickWinsPre emps ls ss rs b) i⟩

lemma compWins_mem_category (rs : List RoleFamilyStats) (b : Benchmarks) :
    ∀ w ∈ compWins rs b, w.category = "compensation" := by
  intro w hw
  unfold compWins at hw
  rw [List.mem_filterMap] at hw
  obtain ⟨r, _, hr⟩ := hw
  split at hr
  · exact absurd hr (by simp)
  · split at hr
    · cases hr
      rfl
    · exact absurd hr (by simp)

lemma offshoringWins_filter_ne (emps : List Employee) (b : Benchmarks) (cat : String)
    (h : ¬("offshoring" = cat)) :
    (offshoringWins emps b).filter (fun w => decide (w.category = cat)) = [] := by
  unfold offshoringWins
  dsimp only
  split <;> simp [h]

lemma singleReportWins_filter_ne (ss : List SpanStats) (cat : String)
    (h : ¬("spans" = cat)) :
    (singleReportWins ss).filter (fun w => decide (w.category = cat)) = [] := by
  unfold singleReportWins
  dsimp only
  split <;> simp [h]

lemma narrowSpanWins_filter_ne (ss : List SpanStats) (b : Benchmarks) (cat : String)
    (h : ¬("spans" = cat)) :
    (narrowSpanWins ss b).filter (fun w => decide (w.category = cat)) = [] := by
  unfold narrowSpanWins
  dsimp only
  split <;> simp [h]

lemma structureWins_filter_ne (ls : List LayerStats) (b : Benchmarks) (cat : String)
    (h : ¬("structure" = cat)) :
    (structureWins ls b).filter (fun w => decide (w.category = cat)) = [] := by
  unfold structureWins
  split
  · rfl
  · split <;> simp [h]

lemma structureWins_filter_self (ls : List LayerStats) (b : Benchmarks) :
    (structureWins ls b).filter (fun w => decide (w.category = "structure"))
      = structureWins ls b := by
  unfold structureWins
  split
  · rfl
  · split <;> simp

lemma structureWins_cases (ls : List LayerStats) (b : Benchmarks) :
    structureWins ls b = [] ∨ ∃ x, structureWins ls b = [x] := by
  unfold structureWins
  split
  · exact Or.inl rfl
  · split
    · exact Or.inr ⟨_, rfl⟩
    · exact Or.inl rfl

lemma quickWinsPre_filter_structure (emps : List Employee) (ls : List LayerStats)
    (ss : List SpanStats) (rs : List RoleFamilyStats) (b : Benchmarks) :
    (quickWinsPre emps ls ss rs b).filter (fun w => decide (w.category = "structure"))
      = structureWins ls b := by
  unfold quickWinsPre
  simp only [List.filter_append]
  rw [offshoringWins_filter_ne emps b _ (by decide),
      singleReportWins_filter_ne ss _ (by decide),
      narrowSpanWins_filter_ne ss b _ (by decide),
      structureWins_filter_self ls b,
      List.filter_eq_nil_iff.mpr
        (fun w hw => by simp [compWins_mem_category rs b w hw])]
  simp

/-- C7 (corrected, counterexample): with a single layer stat of layer 6 and
`maxLayers = 6` the claim's condition `max layer index + 1 > maxLayers`
holds (7 > 6), yet `evaluate` emits no excessive-layers finding, because
the source tests `maxLayer > benchmarks.maxLayers` (6 > 6 is false). -/
theorem excessive_layers_boundary :
    defaultBenchmarks.maxLayers < ls6.layer + 1
  ∧ (generateQuickWins [] [ls6] [] [] defaultBenchmarks).filter
      (fun w => decide (w.category = "structure")) = [] := by
  refine ⟨by decide, ?_⟩
  simp [generateQuickWins, quickWinsPre, offshoringWins, singleReportWins, narrowSpanWins,
    structureWins, compWins, jsMaxLayer, jdiv, jgtB, ls6, defaultBenchmarks,
    List.insertionSort, List.orderedInsert]

/-- C7 (amended): the structure-category findings of `evaluate` are exactly
one finding iff the layer-stat list is nonempty and its maximum layer value
strictly exceeds `maxLayers` (not "max + 1 exceeds `maxLayers`"); that
finding has severity high and metric equal to `maxLayer - maxLayers`;
otherwise there is none. -/
theorem excessive_layers_characterization (emps : List Employee) (ls : List LayerStats)
    (ss : List SpanStats) (rs : List RoleFamilyStats) (b : Benchmarks) :
    (generateQuickWins emps ls ss rs b).filter (fun w => decide (w.category = "structure"))
      = structureWins ls b
  ∧ structureWins ls b
      = (match jsMaxLayer ls with
         | none => []
         | some mL =>
           if b.maxLayers < mL then
             [{ id := "structure-1", impact := Impact.high, category := "structure",
                metricNum := (mL : ℚ) - (b.maxLayers : ℚ) }]
           else []) := by
  refine ⟨?_, rfl⟩
  have hperm :=
    (List.perm_insertionSort qwLE (quickWinsPre emps ls ss rs b)).filter
      (fun w => decide (w.category = "structure"))
  rw [quickWinsPre_filter_structure emps ls ss rs b] at hperm
  unfold generateQuickWins
  rcases structureWins_cases ls b with hsw | ⟨x, hsw⟩
  · rw [hsw] at hperm ⊢
    exact List.perm_nil.mp hperm
  · rw [hsw] at hperm ⊢
    exact List.perm_singleton.mp hperm

/-- The Boolean the compensation rule effectively tests for one group:
`false` outright when the effective target is `undefined` (both lookups
missed), because `avgVariablePercent < undefined * 0.5` is a NaN comparison. -/
def compFires (b : Benchmarks) (r : RoleFamilyStats) : Bool :=
  match effTarget b r.roleFamily with
  | none => false
  | some t => decide (r.avgVariablePercent < t * (1/2))

lemma length_filterMap_isSome {α β : Type} (f : α → Option β) (l : List α) :
    (l.filterMap f).length = (l.filter (fun a => (f a).isSome)).length := by
  induction l with
  | nil => rfl
  | cons a as ih => cases hf : f a <;> simp [List.filterMap_cons, hf, ih]

lemma compWins_length (rs : List RoleFamilyStats) (b : Benchmarks) :
    (compWins rs b).length = (rs.filter (fun r => compFires b r)).length := by
  unfold compWins
  rw [length_filterMap_isSome]
  congr 1
  apply List.filter_congr
  intro r _
  unfold compFires
  cases he : effTarget b r.roleFamily with
  | none => simp only [he, Option.isSome_none]
  | some t =>
    simp only [he]
    by_cases hc : r.avgVariablePercent < t * (1/2)
    · rw [if_pos hc, decide_eq_true hc]
      rfl
    · rw [if_neg hc, decide_eq_false hc]
      rfl

lemma compWins_filter_self (rs : List RoleFamilyStats) (b : Benchmarks) :
    (compWins rs b).filter (fun w => decide (w.category = "compensation")) = compWins rs b :=
  List.filter_eq_self.mpr (fun w hw => by simp [compWins_mem_category rs b w hw])

lemma quickWinsPre_filter_comp (emps : List Employee) (ls : List LayerStats)
    (ss : List SpanStats) (rs : List RoleFamilyStats) (b : Benchmarks) :
    (quickWinsPre emps ls ss rs b).filter (fun w => decide (w.category = "compensation"))
      = compWins rs b := by
  unfold quickWinsPre
  simp only [List.filter_append]
  rw [offshoringWins_filter_ne emps b _ (by decide),
      singleReportWins_filter_ne ss _ (by decide),
      narrowSpanWins_filter_ne ss b _ (by decide),
      structureWins_filter_ne ls b _ (by decide),
      compWins_filter_self rs b]
  simp

/-- C2 (corrected, counterexample): on a policy whose role-target mapping
has no `"default"` entry, `evaluate` does not fail: it returns an ordinary
(here empty) finding list.  The same group under the default policy *does*
produce its compensation finding, so the missing fallback silently
suppresses findings instead of raising a configuration error. -/
theorem no_default_returns_normally :
    effTarget noDefaultPolicy "G" = none
  ∧ generateQuickWins [] [] [] [rsG] noDefaultPolicy = []
  ∧ (generateQuickWins [] [] [] [rsG] defaultBenchmarks).map (fun w => (w.id, w.category))
      = [("comp-G", "compensation")] := by
  refine ⟨rfl, ?_, ?_⟩
  · simp [generateQuickWins, quickWinsPre, offshoringWins, singleReportWins, narrowSpanWins,
      structureWins, compWins, jsMaxLayer, jdiv, jgtB, effTarget, jsOrQ, lookupRole,
      noDefaultPolicy, rsG, List.insertionSort, List.find?, List.filterMap]
  · simp [generateQuickWins, quickWinsPre, offshoringWins, singleReportWins, narrowSpanWins,
      structureWins, compWins, jsMaxLayer, jdiv, jgtB, effTarget, jsOrQ, lookupRole,
      defaultBenchmarks, rsG, List.insertionSort, List.orderedInsert, List.find?,
      List.filterMap]

/-- C2 (amended): `evaluate` never raises a configuration error; the
compensation findings it returns are exactly one per group whose
`compFires` test passes, and a group whose role entry *and* `"default"`
entry are both missing has `compFires = false` — it is silently skipped
(the NaN comparison is false), not reported and not an error. -/
theorem missing_default_skips_silently (emps : List Employee) (ls : List LayerStats)
    (ss : List SpanStats) (rs : List RoleFamilyStats) (b : Benchmarks) :
    ((generateQuickWins emps ls ss rs b).filter
        (fun w => decide (w.category = "compensation"))).length
      = (rs.filter (fun r => compFires b r)).length
  ∧ ∀ r ∈ rs, effTarget b r.roleFamily = none → compFires b r = false := by
  constructor
  · have hperm :=
      (List.perm_insertionSort qwLE (quickWinsPre emps ls ss rs b)).filter
        (fun w => decide (w.category = "compensation"))
    rw [quickWinsPre_filter_comp emps ls ss rs b] at hperm
    unfold generateQuickWins
    rw [hperm.length_eq, compWins_length]
  · intro r _ he
    unfold compFires
    rw [he]

/-- C2 (witness): the amended characterisation applied to the concrete
no-default policy: the group `G` is skipped and no compensation finding is
counted. -/
theorem missing_default_skips_silently_witness :
    ((generateQuickWins [] [] [] [rsG] noDefaultPolicy).filter
        (fun w => decide (w.category = "compensation"))).length
      = ([rsG].filter (fun r => compFires noDefaultPolicy r)).length
  ∧ compFires noDefaultPolicy rsG = false :=
  ⟨(missing_default_skips_silently [] [] [] [rsG] noDefaultPolicy).1,
   (missing_default_skips_silently [] [] [] [rsG] noDefaultPolicy).2 rsG (by decide) rfl⟩

/-- C10 (confirmed): an explicit role target of 0 is falsy, so the lookup
`targetVariableByRole[key] || targetVariableByRole['default']` falls back
to the `"default"` entry; concretely, role `G` with explicit target 0 and
default 15 is compared against 15 and produces a low-variable-compensation
finding, while against a true target of 0 the test
`avgVariable < 0 * 0.5` could never fire for its 0% average. -/
theorem zero_target_falls_through :
    (∀ (b : Benchmarks) (rf : String),
        lookupRole b.targetVariableByRole rf = some 0 →
          effTarget b rf = lookupRole b.targetVariableByRole "default")
  ∧ effTarget zeroTargetPolicy "G" = some 15
  ∧ (generateQuickWins [] [] [] [rsG] zeroTargetPolicy).map (fun w => (w.id, w.category))
      = [("comp-G", "compensation")]
  ∧ ¬(rsG.avgVariablePercent < 0 * (1/2)) := by
  refine ⟨?_, ?_, ?_, ?_⟩
  · intro b rf h
    unfold effTarget jsOrQ
    rw [h]
    simp
  · simp [effTarget, jsOrQ, lookupRole, zeroTargetPolicy, List.find?]
  · simp [generateQuickWins, quickWinsPre, offshoringWins, singleReportWins, narrowSpanWins,
      structureWins, compWins, jsMaxLayer, jdiv, jgtB, effTarget, jsOrQ, lookupRole,
      zeroTargetPolicy, rsG, List.insertionSort, List.orderedInsert, List.find?,
      List.filterMap]
  · simp [rsG]

/-- C10 (witness): the fall-through fact of the first conjunct applied to
the concrete zero-target policy. -/
theorem zero_target_falls_through_witness :
    effTarget zeroTargetPolicy "G" = lookupRole zeroTargetPolicy.targetVariableByRole "default" :=
  zero_target_falls_through.1 zeroTargetPolicy "G"
    (by simp [lookupRole, zeroTargetPolicy, List.find?])

lemma length_filter_cons {α : Type} (p : α → Bool) (a : α) (l : List α) :
    (List.filter p (a :: l)).length
      = (if p a = true then 1 else 0) + (l.filter p).length := by
  cases h : p a <;> simp [List.filter_cons, h, Nat.add_comm]

lemma band_indicator (y : ℚ) :
    ((if (decide (0 ≤ y) && decide (y < 1)) = true then 1 else 0)
      + ((if (decide (1 ≤ y) && decide (y < 3)) = true then 1 else 0)
      + ((if (decide (3 ≤ y) && decide (y < 5)) = true then 1 else 0)
      + (if (decide (5 ≤ y) && decide (y < 100)) = true then 1 else 0))) : ℕ)
      = if (decide (0 ≤ y) && decide (y < 100)) = true then 1 else 0 := by
  simp only [Bool.and_eq_true, decide_eq_true_eq]
  rcases lt_or_le y 0 with hy | hy0
  · have n1 : ¬(0 ≤ y ∧ y < 1) := fun h => absurd h.1 (not_le.mpr hy)
    have n2 : ¬(1 ≤ y ∧ y < 3) := fun h => by linarith [h.1]
    have n3 : ¬(3 ≤ y ∧ y < 5) := fun h => by linarith [h.1]
    have n4 : ¬(5 ≤ y ∧ y < 100) := fun h => by linarith [h.1]
    have nf : ¬(0 ≤ y ∧ y < 100) := fun h => absurd h.1 (not_le.mpr hy)
    simp [n1, n2, n3, n4, nf]
  rcases lt_or_le y 1 with hy1 | hy1
  · have n2 : ¬(1 ≤ y ∧ y < 3) := fun h => by linarith [h.1]
    have n3 : ¬(3 ≤ y ∧ y < 5) := fun h => by linarith [h.1]
    have n4 : ¬(5 ≤ y ∧ y < 100) := fun h => by linarith [h.1]
    simp [hy0, hy1, n2, n3, n4, (show y < 100 by linarith)] <;> linarith
  rcases lt_or_le y 3 with hy3 | hy3
  · have n1 : ¬(y < 1) := by linarith
    have n3 : ¬(3 ≤ y ∧ y < 5) := fun h => by linarith [h.1]
    have n4 : ¬(5 ≤ y ∧ y < 100) := fun h => by linarith [h.1]
    simp [hy0, hy1, hy3, n1, n3, n4, (show y < 100 by linarith)] <;> linarith
  rcases lt_or_le y 5 with hy5 | hy5
  · have n1 : ¬(y < 1) := by linarith
    have n2 : ¬(y < 3) := by linarith
    have n4 : ¬(5 ≤ y ∧ y < 100) := fun h => by linarith [h.1]
    simp [hy0, hy3, hy5, n1, n2, n4, (show y < 100 by linarith)] <;> linarith
  rcases lt_or_le y 100 with hy100 | hy100
  · have n1 : ¬(y < 1) := by linarith
    have n2 : ¬(y < 3) := by linarith
    have n3 : ¬(y < 5) := by linarith
    simp [hy0, hy5, hy100, n1, n2, n3] <;> linarith
  · have n1 : ¬(y < 1) := by linarith
    have n2 : ¬(y < 3) := by linarith
    have n3 : ¬(y < 5) := by linarith
    have n100 : ¬(y < 100) := by linarith
    simp [hy0, hy5, n1, n2, n3, n100] <;> linarith

/-- C8 (corrected, counterexample): a record hired 150 years before the
analysis time has tenure ≥ 5 years but is counted in *no* band: the
`5+ years` band is bounded above by `max: 100`. -/
theorem centenarian_excluded :
    (5 : ℚ) ≤ yearsSince now150 eOld
  ∧ (calculateTenureBands now150 [eOld]).map (fun tb => tb.headcount) = [0, 0, 0, 0] := by
  constructor
  · norm_num [yearsSince, eOld, now150]
  · norm_num [calculateTenureBands, tenureBandDefs, yearsSince, eOld, now150, List.filter]

/-- C8 (amended): `aggregateTenure` buckets by the 365-day-year tenure
formula into exactly the four bands `<1`, `1–3`, `3–5` and `5–100` years;
the last band is *not* unbounded: the bands together count exactly the
records with `0 ≤ years < 100`, so a tenure of 100 years or more (or a
negative one) falls outside every band. -/
theorem tenure_bands_partition (nowMs : ℚ) (emps : List Employee) :
    ((calculateTenureBands nowMs emps).map (fun tb => tb.headcount)).sum
      = (emps.filter (fun e =>
          decide (0 ≤ yearsSince nowMs e) && decide (yearsSince nowMs e < 100))).length
  ∧ (calculateTenureBands nowMs emps).map (fun tb => (tb.band, tb.min, tb.max))
      = [("0-1 years", 0, 1), ("1-3 years", 1, 3), ("3-5 years", 3, 5), ("5+ years", 5, 100)] := by
  refine ⟨?_, rfl⟩
  unfold calculateTenureBands tenureBandDefs
  simp only [List.map_cons, List.map_nil, List.sum_cons, List.sum_nil]
  induction emps with
  | nil => rfl
  | cons e es ih =>
    rw [length_filter_cons, length_filter_cons, length_filter_cons, length_filter_cons,
        length_filter_cons]
    have hb := band_indicator (yearsSince nowMs e)
    omega

/-- C6 (corrected, counterexample): on the empty roster the Façade's
`totals.avgFLRR` and `totals.bestCostPercent` are the unguarded divisions
`0 / 0` — NaN (`none`), not the claimed short-circuited 0. -/
theorem analyze_empty_nan_totals :
    (analyzeEmployeeData 0 [] defaultBenchmarks).totals.avgFLRR = none
  ∧ (analyzeEmployeeData 0 [] defaultBenchmarks).totals.avgFLRR ≠ some 0
  ∧ (analyzeEmployeeData 0 [] defaultBenchmarks).totals.bestCostPercent = none :=
  ⟨rfl, by decide, rfl⟩

/-- C6 (amended): on the empty roster `analyze` returns without error:
null tree, empty stat collections and findings, zero tenure counts, and
zero for every *guarded* total (`avgSpan`, `avgVariablePercent`,
`managerToICRatio`) — but the unguarded `avgFLRR` and `bestCostPercent`
evaluate `0 / 0` and are NaN (`none`), not 0. -/
theorem analyze_empty_degrades (nowMs : ℚ) (b : Benchmarks) :
    (analyzeEmployeeData nowMs [] b).orgTree = none
  ∧ (analyzeEmployeeData nowMs [] b).layerStats = []
  ∧ (analyzeEmployeeData nowMs [] b).spanStats = []
  ∧ (analyzeEmployeeData nowMs [] b).departmentStats = []
  ∧ (analyzeEmployeeData nowMs [] b).roleFamilyStats = []
  ∧ (analyzeEmployeeData nowMs [] b).quickWins = []
  ∧ (analyzeEmployeeData nowMs [] b).tenureBands.map (fun tb => tb.headcount) = [0, 0, 0, 0]
  ∧ (analyzeEmployeeData nowMs [] b).totals =
      { headcount := 0, totalFLRR := 0, avgFLRR := none, layers := 0, avgSpan := 0,
        bestCostPercent := none, avgVariablePercent := 0, managerToICRate := 0 } := by
  refine ⟨rfl, rfl, rfl, rfl, rfl, rfl, rfl, ?_⟩
  simp [analyzeEmployeeData, buildOrgTreeV2, buildOrgTreeAux, orgMap, chooseRoot,
    calculateLayerStats, calculateSpanStats, jdiv]

/-- The keys of a JS map are pairwise distinct. -/
def keysNodup (m : List Employee) : Prop := (m.map Employee.employeeId).Nodup

lemma mapUpsert_keysNodup (m : List Employee) (e : Employee) (h : keysNodup m) :
    keysNodup (mapUpsert m e) := by
  unfold keysNodup mapUpsert at *
  by_cases hmem : m.any (fun x => decide (x.employeeId = e.employeeId)) = true
  · rw [if_pos hmem]
    have hkeys : (m.map (fun x => if x.employeeId = e.employeeId then e else x)).map
        Employee.employeeId = m.map Employee.employeeId := by
      rw [List.map_map]
      apply List.map_congr_left
      intro x _
      by_cases hx : x.employeeId = e.employeeId <;> simp [Function.comp, hx]
    rw [hkeys]
    exact h
  · rw [if_neg hmem]
    rw [List.map_append, List.map_cons, List.map_nil]
    rw [List.nodup_append]
    refine ⟨h, List.nodup_singleton _, ?_⟩
    intro k hk hk2
    simp only [List.mem_singleton] at hk2
    subst hk2
    rw [List.mem_map] at hk
    obtain ⟨x, hx, hxk⟩ := hk
    simp only [List.any_eq_true, decide_eq_true_eq, not_exists, not_and] at hmem
    exact (hmem x hx) hxk

lemma foldl_mapUpsert_keysNodup (l : List Employee) :
    ∀ acc, keysNodup acc → keysNodup (l.foldl mapUpsert acc) := by
  induction l with
  | nil => intro acc h; exact h
  | cons e es ih =>
    intro acc h
    rw [List.foldl_cons]
    exact ih (mapUpsert acc e) (mapUpsert_keysNodup acc e h)

lemma orgMap_keysNodup (emps : List Employee) : keysNodup (orgMap emps) :=
  foldl_mapUpsert_keysNodup emps [] (by simp [keysNodup])

lemma foldl_mapUpsert_append (l : List Employee) :
    ∀ acc, ((acc ++ l).map Employee.employeeId).Nodup → l.foldl mapUpsert acc = acc ++ l := by
  induction l with
  | nil => intro acc _; simp
  | cons e es ih =>
    intro acc h
    have hnotin : ¬(acc.any (fun x => decide (x.employeeId = e.employeeId)) = true) := by
      intro hany
      rw [List.any_eq_true] at hany
      obtain ⟨x, hx, hxe⟩ := hany
      rw [decide_eq_true_eq] at hxe
      rw [List.map_append, List.nodup_append] at h
      exact h.2.2 (List.mem_map_of_mem _ hx)
        (by rw [hxe]; exact List.mem_map_of_mem _ (List.mem_cons_self e es))
    rw [List.foldl_cons, show mapUpsert acc e = acc ++ [e] from by
      unfold mapUpsert; rw [if_neg hnotin]]
    rw [ih (acc ++ [e]) (by simpa using h)]
    simp

/-- On a roster with pairwise distinct identifiers the map holds exactly
the input records in input order. -/
lemma orgMap_eq_self (emps : List Employee) (h : keysNodup emps) : orgMap emps = emps := by
  unfold orgMap
  simpa using foldl_mapUpsert_append emps [] (by simpa [keysNodup] using h)

lemma key_inj (m : List Employee) (hk : keysNodup m) (a b : Employee)
    (ha : a ∈ m) (hb : b ∈ m) (hid : a.employeeId = b.employeeId) : a = b :=
  List.inj_on_of_nodup_map hk ha hb hid

lemma mem_attachedTo (m : List Employee) (i : String) (e : Employee) :
    e ∈ attachedTo m i ↔ e ∈ m ∧ e.managerId = some i ∧ i ≠ "" := by
  unfold attachedTo
  by_cases hi : i = ""
  · simp [hi]
  · simp [hi, List.mem_filter]

lemma find?_eq_self (emps : List Employee) (hk : keysNodup emps) (e : Employee)
    (he : e ∈ emps) :
    emps.find? (fun x => decide (x.employeeId = e.employeeId)) = some e := by
  induction emps with
  | nil => cases he
  | cons a as ih =>
    rcases List.mem_cons.mp he with rfl | hmem
    · simp [List.find?_cons]
    · have hka : a.employeeId ∉ as.map Employee.employeeId := by
        have := hk
        rw [keysNodup, List.map_cons, List.nodup_cons] at this
        exact this.1
      have hne : ¬(a.employeeId = e.employeeId) := by
        intro hid
        exact hka (hid ▸ List.mem_map_of_mem _ hmem)
      have hdec : decide (a.employeeId = e.employeeId) = false := by simp [hne]
      rw [List.find?_cons, hdec]
      exact ih (by rw [keysNodup, List.map_cons, List.nodup_cons] at hk; exact hk.2) hmem

lemma chooseRoot_spec (m : List Employee) (r : Employee) (h : chooseRoot m = some r) :
    r ∈ m ∧ isRootCand m r = true := by
  unfold chooseRoot at h
  suffices hgen : ∀ (l : List Employee) (acc : Option Employee),
      (∀ x, acc = some x → x ∈ m ∧ isRootCand m x = true) →
      (∀ e ∈ l, e ∈ m) →
      ∀ x, l.foldl (fun r e => if isRootCand m e then some e else r) acc = some x →
        x ∈ m ∧ isRootCand m x = true by
    exact hgen m none (by intro x hx; cases hx) (fun e he => he) r h
  intro l
  induction l with
  | nil => intro acc hacc _ x hx; exact hacc x hx
  | cons e es ih =>
    intro acc hacc hl x hx
    rw [List.foldl_cons] at hx
    by_cases hc : isRootCand m e = true
    · rw [if_pos hc] at hx
      exact ih (some e) (fun y hy => by cases hy; exact ⟨hl e (List.mem_cons_self e es), hc⟩)
        (fun y hy => hl y (List.mem_cons_of_mem e hy)) x hx
    · rw [if_neg hc] at hx
      exact ih acc hacc (fun y hy => hl y (List.mem_cons_of_mem e hy)) x hx

lemma chainOK_mem (m : List Employee) (l : List Employee) (h : ChainOK m l) :
    ∀ a ∈ l, a ∈ m := by
  induction h with
  | single r hr _ =>
    intro a ha
    rw [List.mem_singleton] at ha
    exact ha ▸ hr
  | cons e p rest _ hatt ih =>
    intro a ha
    rcases List.mem_cons.mp ha with rfl | ha2
    · exact ((mem_attachedTo m _ a).mp hatt).1
    · exact ih a ha2

lemma chainOK_split (m : List Employee) (l : List Employee) (h : ChainOK m l) :
    ∀ (l1 : List Employee) (e : Employee) (l2 : List Employee), l = l1 ++ e :: l2 →
      (l2 = [] ∧ isRootCand m e = true)
        ∨ ∃ q t2, l2 = q :: t2 ∧ e ∈ attachedTo m q.employeeId := by
  induction h with
  | single r _ hc =>
    intro l1 e l2 heq
    cases l1 with
    | nil =>
      rw [List.nil_append] at heq
      obtain ⟨rfl, h2⟩ := List.cons_eq_cons.mp heq
      subst h2
      exact Or.inl ⟨rfl, hc⟩
    | cons x xs =>
      rw [List.cons_append] at heq
      obtain ⟨rfl, h2⟩ := List.cons_eq_cons.mp heq
      exact absurd h2 (by simp)
  | cons e0 p rest _ hatt ih =>
    intro l1 e l2 heq
    cases l1 with
    | nil =>
      rw [List.nil_append] at heq
      obtain ⟨rfl, h2⟩ := List.cons_eq_cons.mp heq
      subst h2
      exact Or.inr ⟨p, rest, rfl, hatt⟩
    | cons x xs =>
      rw [List.cons_append] at heq
      obtain ⟨rfl, h2⟩ := List.cons_eq_cons.mp heq
      exact ih xs e l2 h2

lemma chainOK_nodup (m : List Employee) (hk : keysNodup m) (l : List Employee)
    (h : ChainOK m l) : l.Nodup := by
  induction h with
  | single r _ _ => exact List.nodup_singleton r
  | cons e p rest hp hatt ih =>
    refine List.nodup_cons.mpr ⟨?_, ih⟩
    intro hmem
    obtain ⟨l1, l2, hsplit⟩ := List.append_of_mem hmem
    have hem := (mem_attachedTo m p.employeeId e).mp hatt
    rcases chainOK_split m (p :: rest) hp l1 e l2 hsplit with ⟨_, hrc⟩ | ⟨q, t2, hl2, hatt2⟩
    · have hpm : p ∈ m := chainOK_mem m (p :: rest) hp p (List.mem_cons_self p rest)
      unfold isRootCand at hrc
      rw [hem.2.1] at hrc
      simp only [Bool.or_eq_true, decide_eq_true_eq, Bool.not_eq_eq_eq_not, Bool.not_true,
        List.any_eq_false, decide_eq_false_iff_not] at hrc
      rcases hrc with h1 | h2
      · exact hem.2.2 h1
      · exact (h2 p hpm) rfl
    · have hem2 := (mem_attachedTo m q.employeeId e).mp hatt2
      have hqid : p.employeeId = q.employeeId :=
        Option.some.inj (hem.2.1.symm.trans hem2.2.1)
      have hq : q ∈ m := by
        apply chainOK_mem m (p :: rest) hp q
        rw [hsplit, hl2]
        exact List.mem_append_right _ (List.mem_cons_of_mem e (List.mem_cons_self q t2))
      have hpm : p ∈ m := chainOK_mem m (p :: rest) hp p (List.mem_cons_self p rest)
      have hpq : p = q := key_inj m hk p q hpm hq hqid
      subst hpq
      have hprest : p ∈ rest := by
        rw [hl2] at hsplit
        cases l1 with
        | nil =>
          rw [List.nil_append] at hsplit
          obtain ⟨_, h2⟩ := List.cons_eq_cons.mp hsplit
          rw [h2]
          exact List.mem_cons_self p t2
        | cons x xs =>
          rw [List.cons_append] at hsplit
          obtain ⟨_, h2⟩ := List.cons_eq_cons.mp hsplit
          rw [h2]
          exact List.mem_append_right _ (List.mem_cons_of_mem e (List.mem_cons_self p t2))
      exact (List.nodup_cons.mp ih).1 hprest

lemma chainOK_length_le (m : List Employee) (hk : keysNodup m) (l : List Employee)
    (h : ChainOK m l) : l.length ≤ m.length := by
  have hnd := chainOK_nodup m hk l h
  have hsub : ∀ a ∈ l, a ∈ m := chainOK_mem m l h
  calc l.length = l.toFinset.card := (List.toFinset_card_of_nodup hnd).symm
    _ ≤ m.toFinset.card := Finset.card_le_card (fun x hx => by
        rw [List.mem_toFinset] at hx ⊢
        exact hsub x hx)
    _ ≤ m.length := List.toFinset_card_le m

lemma buildSub_subtreeOK (m : List Employee) (hk : keysNodup m) :
    ∀ (fuel : Nat) (e : Employee) (anc : List Employee) (lay : Nat),
      ChainOK m (e :: anc) → m.length ≤ fuel + anc.length →
      SubtreeOK m (buildSub m fuel e lay) := by
  intro fuel
  induction fuel with
  | zero =>
    intro e anc lay hch hle
    exfalso
    have hlen := chainOK_length_le m hk (e :: anc) hch
    rw [List.length_cons] at hlen
    omega
  | succ f ih =>
    intro e anc lay hch hle
    refine SubtreeOK.mk e lay _ ?_ ?_
    · rw [List.map_map]
      conv_rhs => rw [← List.map_id (attachedTo m e.employeeId)]
      apply List.map_congr_left
      intro c _
      exact buildSub_emp m f c (lay + 1)
    · intro c hc
      rw [List.mem_map] at hc
      obtain ⟨c0, hc0, rfl⟩ := hc
      refine ih c0 (e :: anc) (lay + 1) (ChainOK.cons c0 e anc hch hc0) ?_
      rw [List.length_cons]
      omega

lemma buildOrgTreeAux_subtreeOK (emps : List Employee) (rl : Nat) (t : OrgNode)
    (h : buildOrgTreeAux emps rl = some t) : SubtreeOK (orgMap emps) t := by
  obtain ⟨r, hr, rfl⟩ := buildOrgTreeAux_eq_some emps rl t h
  obtain ⟨hrm, hrc⟩ := chooseRoot_spec (orgMap emps) r hr
  exact buildSub_subtreeOK (orgMap emps) (orgMap_keysNodup emps) (orgMap emps).length r [] rl
    (ChainOK.single r hrm hrc) (by simp)

lemma mem_treeEmpsL (cs : List OrgNode) (a : Employee) :
    a ∈ treeEmpsL cs ↔ ∃ c ∈ cs, a ∈ treeEmps c := by
  induction cs with
  | nil => simp [treeEmpsL]
  | cons c cs ih => simp [treeEmpsL, List.mem_append, ih]

lemma treeEmps_subset (m : List Employee) (t : OrgNode) (hok : SubtreeOK m t) :
    t.emp ∈ m → ∀ a ∈ treeEmps t, a ∈ m := by
  induction hok with
  | mk e lay cs hmap _ ih =>
    intro hem a ha
    rw [treeEmps] at ha
    rcases List.mem_cons.mp ha with rfl | ha2
    · exact hem
    · obtain ⟨c, hc, hac⟩ := (mem_treeEmpsL cs a).mp ha2
      refine ih c hc ?_ a hac
      have hcm : c.emp ∈ attachedTo m e.employeeId := hmap ▸ List.mem_map_of_mem _ hc
      exact ((mem_attachedTo m _ _).mp hcm).1

lemma collectLayersL_map_fst (emps : List Employee) (cs : List OrgNode)
    (h : ∀ c ∈ cs, (collectLayers emps c).map Prod.fst = treeEmps c) :
    (collectLayersL emps cs).map Prod.fst = treeEmpsL cs := by
  induction cs with
  | nil => rfl
  | cons c cs ih =>
    rw [collectLayersL, treeEmpsL, List.map_append, h c (List.mem_cons_self c cs),
      ih (fun x hx => h x (List.mem_cons_of_mem c hx))]

lemma collectLayers_map_fst (emps : List Employee) (hk : keysNodup emps) (t : OrgNode)
    (hok : SubtreeOK emps t) :
    t.emp ∈ emps → (collectLayers emps t).map Prod.fst = treeEmps t := by
  induction hok with
  | mk e lay cs hmap _ ih =>
    intro hem
    rw [collectLayers, treeEmps]
    rw [show OrgNode.emp (OrgNode.mk e lay cs) = e from rfl] at hem
    rw [find?_eq_self emps hk e hem]
    rw [List.map_append, List.map_cons, List.map_nil, List.singleton_append]
    have hrest : (collectLayersL emps cs).map Prod.fst = treeEmpsL cs := by
      apply collectLayersL_map_fst
      intro c hc
      refine ih c hc ?_
      have hcm : c.emp ∈ attachedTo emps e.employeeId := hmap ▸ List.mem_map_of_mem _ hc
      exact ((mem_attachedTo emps _ _).mp hcm).1
    rw [hrest]

lemma collectSpansL_managerIds (m : List Employee) (cs : List OrgNode)
    (h : ∀ c ∈ cs, (collectSpans c).map SpanStats.managerId
      = ((treeEmps c).filter (fun e => decide (attachedTo m e.employeeId ≠ []))).map
          Employee.employeeId) :
    (collectSpansL cs).map SpanStats.managerId
      = ((treeEmpsL cs).filter (fun e => decide (attachedTo m e.employeeId ≠ []))).map
          Employee.employeeId := by
  induction cs with
  | nil => rfl
  | cons c cs ih =>
    rw [collectSpansL, treeEmpsL, List.map_append, List.filter_append, List.map_append,
      h c (List.mem_cons_self c cs), ih (fun x hx => h x (List.mem_cons_of_mem c hx))]

lemma collectSpans_managerIds (m : List Employee) (t : OrgNode) (hok : SubtreeOK m t) :
    (collectSpans t).map SpanStats.managerId
      = ((treeEmps t).filter (fun e => decide (attachedTo m e.employeeId ≠ []))).map
          Employee.employeeId := by
  induction hok with
  | mk e lay cs hmap _ ih =>
    rw [collectSpans, treeEmps, List.filter_cons]
    have hlen : cs.length = (attachedTo m e.employeeId).length := by
      rw [← hmap, List.length_map]
    have hrest := collectSpansL_managerIds m cs (fun c hc => ih c hc)
    by_cases hc : 0 < cs.length
    · have hne : attachedTo m e.employeeId ≠ [] := by
        rw [← List.length_pos_iff_ne_nil, ← hlen]
        exact hc
      rw [if_pos hc, if_pos (by simpa using hne)]
      rw [List.map_append, List.map_cons, List.map_nil, List.map_cons]
      rw [hrest]
      rfl
    · have hnil : attachedTo m e.employeeId = [] := by
        rw [← List.length_eq_zero, ← hlen]
        omega
      rw [if_neg hc, if_neg (by simp [hnil])]
      rw [List.nil_append]
      exact hrest

lemma length_filter_and_split {α : Type} (B P : α → Bool) (l : List α) :
    (l.filter P).length
      = (l.filter (fun a => B a && P a)).length
        + (l.filter (fun a => P a && !(B a))).length := by
  induction l with
  | nil => rfl
  | cons a as ih =>
    cases hb : B a <;> cases hp : P a <;>
      simp [List.filter_cons, hb, hp] <;> omega

lemma filter_sub_filter {α : Type} (A B : α → Bool) (l : List α)
    (h : ∀ a ∈ l, A a = true → B a = true) :
    (l.filter B).filter A = l.filter A := by
  induction l with
  | nil => rfl
  | cons a as ih =>
    have ihh := ih (fun x hx => h x (List.mem_cons_of_mem a hx))
    cases hb : B a <;> cases ha : A a <;>
      simp [List.filter_cons, hb, ha, ihh]
    exact absurd (h a (List.mem_cons_self a as) ha) (by simp [hb])

lemma sum_count_partition {α : Type} (P : α → Bool) (key : α → Nat) :
    ∀ (ks : List Nat) (l : List α), ks.Nodup → (∀ a ∈ l, key a ∈ ks) →
      (ks.map (fun k => (l.filter (fun a => decide (key a = k) && P a)).length)).sum
        = (l.filter P).length := by
  intro ks
  induction ks with
  | nil =>
    intro l _ hcov
    cases l with
    | nil => rfl
    | cons a as => exact absurd (hcov a (List.mem_cons_self a as)) (List.not_mem_nil _)
  | cons k ks ih =>
    intro l hnd hcov
    rw [List.map_cons, List.sum_cons,
      length_filter_and_split (fun a => decide (key a = k)) P l]
    congr 1
    have hmapeq : ∀ k2 ∈ ks,
        (l.filter (fun a => decide (key a = k2) && P a)).length
          = ((l.filter (fun a => !(decide (key a = k)))).filter
              (fun a => decide (key a = k2) && P a)).length := by
      intro k2 hk2
      rw [filter_sub_filter (fun a => decide (key a = k2) && P a)
        (fun a => !(decide (key a = k))) l]
      intro a _ ha
      rw [Bool.and_eq_true, decide_eq_true_eq] at ha
      simp only [Bool.not_eq_eq_eq_not, Bool.not_true, decide_eq_false_iff_not]
      intro hak
      rw [List.nodup_cons] at hnd
      rw [← ha.1, hak] at hk2
      exact hnd.1 hk2
    rw [List.map_congr_left hmapeq]
    rw [ih (l.filter (fun a => !(decide (key a = k)))) (List.nodup_cons.mp hnd).2 ?_]
    · rw [List.filter_filter]
    · intro a ha
      rw [List.mem_filter] at ha
      have hak := hcov a ha.1
      rcases List.mem_cons.mp hak with h1 | h2
      · rw [h1] at ha
        simp at ha
      · exact h2

lemma dedupFirst_nodup {α : Type} [DecidableEq α] (l : List α) : (dedupFirst l).Nodup := by
  induction l with
  | nil => exact List.nodup_nil
  | cons k ks ih =>
    rw [dedupFirst, List.nodup_cons]
    constructor
    · intro hmem
      rw [List.mem_filter] at hmem
      simp at hmem
    · exact List.Nodup.filter _ ih

lemma mem_dedupFirst {α : Type} [DecidableEq α] (a : α) (l : List α) :
    a ∈ dedupFirst l ↔ a ∈ l := by
  induction l with
  | nil => simp [dedupFirst]
  | cons k ks ih =>
    rw [dedupFirst, List.mem_cons, List.mem_cons]
    by_cases hak : a = k
    · simp [hak]
    · simp only [hak, false_or]
      rw [List.mem_filter]
      simp [hak, ih]

lemma managers_count_eq (emps : List Employee) (pairs : List (Employee × Nat)) (k : Nat) :
    (((pairs.filter (fun p => decide (p.2 = k))).map Prod.fst).filter
        (fun e => isMgrOf emps e)).length
      = (pairs.filter (fun q => decide (q.2 = k) && isMgrOf emps q.1)).length := by
  rw [List.filter_map, List.length_map, List.filter_filter]
  congr 1
  apply List.filter_congr
  intro q _
  exact Bool.and_comm _ _

lemma calcLayer_managers_sum (emps : List Employee) (t : OrgNode) :
    ((calculateLayerStats emps (some t)).map LayerStats.managers).sum
      = ((collectLayers emps t).filter (fun q => isMgrOf emps q.1)).length := by
  unfold calculateLayerStats
  dsimp only
  rw [List.map_map]
  have hpt : (LayerStats.managers ∘ layerStatOf emps (collectLayers emps t))
      = fun k => ((collectLayers emps t).filter
          (fun q => decide (q.2 = k) && isMgrOf emps q.1)).length := by
    funext k
    exact managers_count_eq emps (collectLayers emps t) k
  rw [hpt]
  apply sum_count_partition (fun q => isMgrOf emps q.1) Prod.snd
  · exact ((List.perm_insertionSort _ _).nodup_iff).mpr
      (dedupFirst_nodup ((collectLayers emps t).map Prod.snd))
  · intro q hq
    rw [(List.perm_insertionSort _ _).mem_iff, mem_dedupFirst]
    exact List.mem_map_of_mem Prod.snd hq

lemma isMgr_eq_attached (emps : List Employee) (e : Employee) (hne : e.employeeId ≠ "") :
    decide (attachedTo emps e.employeeId ≠ []) = isMgrOf emps e := by
  unfold attachedTo isMgrOf
  rw [if_neg hne]
  by_cases h : emps.any (fun x => decide (x.managerId = some e.employeeId)) = true
  · rw [h]
    rw [List.any_eq_true] at h
    obtain ⟨x, hx, hxe⟩ := h
    rw [decide_eq_true_eq] at hxe
    apply decide_eq_true
    intro hnil
    have hxf : x ∈ List.filter (fun e2 => decide (e2.managerId = some e.employeeId)) emps := by
      rw [List.mem_filter]
      exact ⟨hx, by simp [hxe]⟩
    rw [hnil] at hxf
    exact List.not_mem_nil x hxf
  · rw [Bool.not_eq_true] at h
    rw [h]
    have hnil : List.filter (fun e2 => decide (e2.managerId = some e.employeeId)) emps = [] := by
      rw [List.filter_eq_nil_iff]
      intro a ha
      have := List.any_eq_false.mp h a ha
      simpa using this
    rw [hnil]
    simp

lemma spans_length_eq (emps : List Employee) (t : OrgNode) (hok : SubtreeOK emps t) :
    (collectSpans t).length
      = ((treeEmps t).filter (fun e => decide (attachedTo emps e.employeeId ≠ []))).length := by
  have hmap := congrArg List.length (collectSpans_managerIds emps t hok)
  rwa [List.length_map, List.length_map] at hmap

/-- C5 (amended): under pairwise-distinct, non-empty identifiers the
manager counts are consistent *within the reachable tree*: the sum over all
layers of `LayerStats.managers` equals the number of `SpanRecord`s (which
is also the Façade's manager total, `spanStats.length`), and an identifier
appears as some `SpanRecord.managerId` iff its record is **reachable from
the chosen root** and at least one record's manager reference resolves to
it.  (The claim's unconditional "iff at least one other record's manager
reference resolves to it" fails for unreachable managers, see the
counterexample.) -/
theorem manager_classification_consistency (emps : List Employee)
    (hk : (emps.map Employee.employeeId).Nodup)
    (hne : ∀ e ∈ emps, e.employeeId ≠ "") :
    (((calculateLayerStats emps (buildOrgTreeV2 emps)).map LayerStats.managers).sum
        = (calculateSpanStats emps (buildOrgTreeV2 emps)).length)
  ∧ (∀ a : String,
      a ∈ (calculateSpanStats emps (buildOrgTreeV2 emps)).map SpanStats.managerId
        ↔ ∃ t, buildOrgTreeV2 emps = some t
            ∧ ∃ e ∈ treeEmps t, e.employeeId = a ∧ isMgrOf emps e = true)
  ∧ (∀ (nowMs : ℚ) (b : Benchmarks),
      ((analyzeEmployeeData nowMs emps b).layerStats.map LayerStats.managers).sum
        = (analyzeEmployeeData nowMs emps b).spanStats.length) := by
  have hkey : keysNodup emps := hk
  have hmain : ((calculateLayerStats emps (buildOrgTreeV2 emps)).map LayerStats.managers).sum
      = (calculateSpanStats emps (buildOrgTreeV2 emps)).length := by
    cases ht : buildOrgTreeV2 emps with
    | none => rfl
    | some t =>
      have hok : SubtreeOK emps t := by
        have h0 := buildOrgTreeAux_subtreeOK emps 1 t ht
        rwa [orgMap_eq_self emps hkey] at h0
      have hroot : t.emp ∈ emps := by
        obtain ⟨r, hr, heq⟩ := buildOrgTreeAux_eq_some emps 1 t ht
        have hspec := chooseRoot_spec _ r hr
        rw [orgMap_eq_self emps hkey] at hspec
        rw [heq, buildSub_emp]
        exact hspec.1
      show ((calculateLayerStats emps (some t)).map LayerStats.managers).sum
        = (collectSpans t).length
      rw [calcLayer_managers_sum emps t, spans_length_eq emps t hok]
      have h1 : ((collectLayers emps t).filter (fun q => isMgrOf emps q.1)).length
          = (((collectLayers emps t).map Prod.fst).filter (fun e => isMgrOf emps e)).length := by
        rw [List.filter_map, List.length_map]
        rfl
      rw [h1, collectLayers_map_fst emps hkey t hok hroot]
      congr 1
      apply List.filter_congr
      intro e he
      exact (isMgr_eq_attached emps e (hne e (treeEmps_subset emps t hok hroot e he))).symm
  refine ⟨hmain, ?_, fun nowMs b => hmain⟩
  intro a
  cases ht : buildOrgTreeV2 emps with
  | none =>
    constructor
    · intro ha
      exact absurd ha (by simp [calculateSpanStats])
    · rintro ⟨t2, ht2, _⟩
      exact Option.noConfusion ht2
  | some t =>
    have hok : SubtreeOK emps t := by
      have h0 := buildOrgTreeAux_subtreeOK emps 1 t ht
      rwa [orgMap_eq_self emps hkey] at h0
    have hroot : t.emp ∈ emps := by
      obtain ⟨r, hr, heq⟩ := buildOrgTreeAux_eq_some emps 1 t ht
      have hspec := chooseRoot_spec _ r hr
      rw [orgMap_eq_self emps hkey] at hspec
      rw [heq, buildSub_emp]
      exact hspec.1
    show a ∈ (collectSpans t).map SpanStats.managerId ↔ _
    rw [collectSpans_managerIds emps t hok]
    constructor
    · intro ha
      rw [List.mem_map] at ha
      obtain ⟨e, he, rfl⟩ := ha
      rw [List.mem_filter] at he
      refine ⟨t, rfl, e, he.1, rfl, ?_⟩
      rw [← isMgr_eq_attached emps e (hne e (treeEmps_subset emps t hok hroot e he.1))]
      exact he.2
    · rintro ⟨t2, ht2, e, he, rfl, hmgr⟩
      have ht2t : t = t2 := Option.some.inj ht2
      subst ht2t
      apply List.mem_map_of_mem
      rw [List.mem_filter]
      refine ⟨he, ?_⟩
      rw [isMgr_eq_attached emps e (hne e (treeEmps_subset emps t hok hroot e he))]
      exact hmgr

/-- C5 (witness): the amended consistency applied to the scenario roster
`[A, B→A, C→A, D→Z]` (distinct, non-empty identifiers). -/
theorem manager_classification_consistency_witness :
    (((calculateLayerStats c1emps (buildOrgTreeV2 c1emps)).map LayerStats.managers).sum
        = (calculateSpanStats c1emps (buildOrgTreeV2 c1emps)).length)
  ∧ (∀ a : String,
      a ∈ (calculateSpanStats c1emps (buildOrgTreeV2 c1emps)).map SpanStats.managerId
        ↔ ∃ t, buildOrgTreeV2 c1emps = some t
            ∧ ∃ e ∈ treeEmps t, e.employeeId = a ∧ isMgrOf c1emps e = true)
  ∧ (∀ (nowMs : ℚ) (b : Benchmarks),
      ((analyzeEmployeeData nowMs c1emps b).layerStats.map LayerStats.managers).sum
        = (analyzeEmployeeData nowMs c1emps b).spanStats.length) :=
  manager_classification_consistency c1emps (by decide) (by decide)

/-- C5 (corrected, counterexample): on `[X, Y, Z→X]` the record `Z`'s
manager reference resolves to `X`, yet no `SpanRecord` carries `X` (the
span list is empty): `X` is an unreachable root candidate (the last
candidate `Y` became the root), refuting the claimed unconditional iff. -/
theorem unreachable_manager_has_no_span :
    calculateSpanStats c5emps (buildOrgTreeV2 c5emps) = []
  ∧ c5emps.any (fun r => decide (r.managerId = some "X")) = true
  ∧ "X" ∈ c5emps.map Employee.employeeId :=
  ⟨by decide, by decide, by decide⟩
